import Mathlib

/-!
Verification of the hotkey trigger-matching engine of the
Seelen-Corp/windows-keyboard-hook repository.

The file embeds, as Lean functions, the core data model of the
repository: the key catalog (`VKey`), the keyboard state tracker
(`KeyboardState`) and the hotkey descriptor together with its matching
engine (`Hotkey`, translated from src/hotkey.rs).  The key catalog and
the state tracker live in source files that are not part of the
distributed sources, so they are modelled from the specification text,
as indicated in their doc comments; src/hotkey.rs is translated
directly.
-/

set_option autoImplicit false

/-- Modelled from the spec: the key catalog enumerates physical/virtual
keys.  The actual enumeration (key.rs) is not among the distributed
sources; this model keeps the sentinel `None`, the generic modifier
roles Control/Shift/Menu(Alt)/Win with their left/right specific
variants, and the ordinary keys the tests exercise (A, B, V). -/
inductive VKey where
  | None
  | Control
  | LControl
  | RControl
  | Shift
  | LShift
  | RShift
  | Menu
  | LMenu
  | RMenu
  | Win
  | LWin
  | RWin
  | A
  | B
  | V
deriving DecidableEq

/-- Modelled from the spec: maps a left/right specific modifier variant
to its generic role; every other key has no generic counterpart. -/
def VKey.genericOf : VKey → Option VKey
  | .LControl => some .Control
  | .RControl => some .Control
  | .LShift => some .Shift
  | .RShift => some .Shift
  | .LMenu => some .Menu
  | .RMenu => some .Menu
  | .LWin => some .Win
  | .RWin => some .Win
  | _ => none

/-- Modelled from the spec: `is_modifier()` is true for
Control/Shift/Alt/Win and their left/right specific forms. -/
def VKey.is_modifier_key : VKey → Bool
  | .Control => true
  | .LControl => true
  | .RControl => true
  | .Shift => true
  | .LShift => true
  | .RShift => true
  | .Menu => true
  | .LMenu => true
  | .RMenu => true
  | .Win => true
  | .LWin => true
  | .RWin => true
  | _ => false

/-- Modelled from the spec: `matches(other)` is true for identical keys,
and also true when one side is a generic modifier role and the other is
its left or right specific variant; exact identity only for non-modifier
keys. -/
def VKey.matches (a b : VKey) : Bool :=
  decide (a = b) || decide (VKey.genericOf a = some b) ||
    decide (VKey.genericOf b = some a)

/-- Modelled from the spec: the keyboard state tracker holds the set of
currently held keys and the chronological sequence of distinct press
transitions since the last reset.  The pressing set is represented as a
duplicate-free list with set semantics. -/
structure KeyboardState where
  pressing : List VKey
  sequence : List VKey
deriving DecidableEq

def KeyboardState.new : KeyboardState := { pressing := [], sequence := [] }

/-- Modelled from the spec, section 4.2 `keydown(key)`:
1. if `pressing` is empty and `sequence` is non-empty, clear `sequence`
   first (lazy reset);
2. if `key` is already in `pressing`, this is a hold/auto-repeat: no
   change;
3. otherwise insert `key` into `pressing` and append it to `sequence`. -/
def KeyboardState.keydown (s : KeyboardState) (key : VKey) : KeyboardState :=
  let s1 := if s.pressing = [] ∧ s.sequence ≠ [] then
    { s with sequence := [] } else s
  if key ∈ s1.pressing then s1
  else { pressing := s1.pressing ++ [key], sequence := s1.sequence ++ [key] }

/-- Modelled from the spec, section 4.2 `keyup(key)`: remove `key` from
`pressing`; `sequence` is left untouched. -/
def KeyboardState.keyup (s : KeyboardState) (key : VKey) : KeyboardState :=
  { s with pressing := s.pressing.filter (fun k => decide (k ≠ key)) }

/-- Modelled from the spec: `is_down(key)` is the modifier-generic
membership test against `pressing`. -/
def KeyboardState.is_down (s : KeyboardState) (key : VKey) : Bool :=
  s.pressing.any (fun k => key.matches k)

/-- Modelled from the spec: true if any matching variant of Win is in
`pressing`. -/
def KeyboardState.is_win_pressed (s : KeyboardState) : Bool :=
  s.is_down .Win

/-- Modelled from the spec: true if any matching variant of Alt (Menu)
is in `pressing`. -/
def KeyboardState.is_menu_pressed (s : KeyboardState) : Bool :=
  s.is_down .Menu

/-- Modelled from the spec: true if any matching variant of Shift is in
`pressing`. -/
def KeyboardState.is_shift_pressed (s : KeyboardState) : Bool :=
  s.is_down .Shift

/-- Modelled from the spec: true if any matching variant of Control is
in `pressing`. -/
def KeyboardState.is_control_pressed (s : KeyboardState) : Bool :=
  s.is_down .Control

/-- From src/hotkey.rs: what should happen with the key event after the
hotkey triggers. -/
inductive TriggerBehavior where
  | PassThrough
  | StopPropagation
deriving DecidableEq

/-- From src/hotkey.rs: when a hotkey should trigger. -/
inductive TriggerTiming where
  | OnKeyDown
  | OnKeyUp
deriving DecidableEq

/-- From src/hotkey.rs: a keyboard shortcut that triggers an action.
The callback closure is represented by an abstract numeric identifier;
only its identity could ever be observed by the properties below, and
none of them does. -/
structure Hotkey where
  trigger_key : VKey
  trigger_timing : TriggerTiming
  modifiers : List VKey
  behaviour : TriggerBehavior
  bypass_pause : Bool
  strict_sequence : Bool
  callback : Nat
deriving DecidableEq

/-- From src/hotkey.rs `Hotkey::base`. -/
def Hotkey.base : Hotkey :=
  { trigger_key := .None
    modifiers := []
    behaviour := .StopPropagation
    trigger_timing := .OnKeyDown
    bypass_pause := false
    strict_sequence := false
    callback := 0 }

/-- From src/hotkey.rs `Hotkey::new`. -/
def Hotkey.new (trigger_key : VKey) (modifiers : List VKey)
    (callback : Nat) : Hotkey :=
  { trigger_key := trigger_key
    behaviour := .StopPropagation
    trigger_timing := .OnKeyDown
    bypass_pause := false
    strict_sequence := false
    modifiers := modifiers
    callback := callback }

/-- From src/hotkey.rs `Hotkey::trigger`. -/
def Hotkey.trigger (h : Hotkey) (key : VKey) : Hotkey :=
  { h with trigger_key := key }

/-- From src/hotkey.rs `Hotkey::from_keys`: the last key is used as the
trigger, the remaining prefix as the modifiers; on an empty list the
base descriptor (sentinel trigger, no modifiers) is returned. -/
def Hotkey.from_keys (keys : List VKey) : Hotkey :=
  match keys.getLast? with
  | none => { Hotkey.base with modifiers := keys.dropLast }
  | some last => { Hotkey.base.trigger last with modifiers := keys.dropLast }

/-- From src/hotkey.rs `Hotkey::strict_sequence` (builder). -/
def Hotkey.set_strict_sequence (h : Hotkey) : Hotkey :=
  { h with strict_sequence := true }

/-- From src/hotkey.rs `Hotkey::trigger_timing` (builder). -/
def Hotkey.set_trigger_timing (h : Hotkey) (timing : TriggerTiming) : Hotkey :=
  { h with trigger_timing := timing }

/-- From src/hotkey.rs `Hotkey::generate_expected_keyboard_state`:
start from a fresh keyboard state, replay keydown for each modifier in
order, keydown for the trigger key, and, when the timing is OnKeyUp,
one keyup for the trigger key. -/
def Hotkey.generate_expected_keyboard_state (h : Hotkey) : KeyboardState :=
  let s0 := h.modifiers.foldl KeyboardState.keydown KeyboardState.new
  let s1 := s0.keydown h.trigger_key
  if h.trigger_timing = .OnKeyUp then s1.keyup h.trigger_key else s1

/-- From src/hotkey.rs, the first loop of `is_trigger_state`: every
required non-modifier key of the expected pressing set is down in the
live state. -/
def pressingSatisfied (expected live : KeyboardState) : Bool :=
  expected.pressing.all (fun key => key.is_modifier_key || live.is_down key)

/-- From src/hotkey.rs, the strict-sequence block of `is_trigger_state`:
the live sequence has the same length as the expected one and each
position satisfies the modifier-generic matches relation. -/
def sequenceStrictOk (expected live : KeyboardState) : Bool :=
  (expected.sequence.length == live.sequence.length) &&
    (expected.sequence.zip live.sequence).all (fun p => p.1.matches p.2)

/-- From src/hotkey.rs, the final expression of `is_trigger_state`: the
four modifier-pressed booleans of the expected state equal those of the
live state. -/
def modifierStatesMatch (expected live : KeyboardState) : Bool :=
  (expected.is_win_pressed == live.is_win_pressed) &&
    (expected.is_menu_pressed == live.is_menu_pressed) &&
    (expected.is_shift_pressed == live.is_shift_pressed) &&
    (expected.is_control_pressed == live.is_control_pressed)

/-- From src/hotkey.rs `Hotkey::is_trigger_state`: the trigger decision
procedure, with each early `return false` of the source rendered as an
if-branch. -/
def Hotkey.is_trigger_state (h : Hotkey) (changed : VKey)
    (state : KeyboardState) : Bool :=
  if h.trigger_key ≠ changed then false
  else if !(pressingSatisfied h.generate_expected_keyboard_state state) then
    false
  else if h.strict_sequence &&
      !(sequenceStrictOk h.generate_expected_keyboard_state state) then
    false
  else modifierStatesMatch h.generate_expected_keyboard_state state

/-- Index-checked rendering of the strict-sequence loop of
`is_trigger_state`: the source indexes the live sequence at position
`i`; here the index is looked up with an option-valued access so that
an out-of-bounds index surfaces as `none` instead of being silently
defaulted. -/
def seqLoopChecked (live : List VKey) : List VKey → Nat → Option Bool
  | [], _ => some true
  | k :: rest, i =>
    match live[i]? with
    | none => none
    | some l => if k.matches l then seqLoopChecked live rest (i + 1)
                else some false

/-- Index-checked rendering of `Hotkey::is_trigger_state`: identical to
`Hotkey.is_trigger_state` except that the positional access of the
strict-sequence loop propagates a potential out-of-bounds access as
`none`. -/
def Hotkey.is_trigger_state_checked (h : Hotkey) (changed : VKey)
    (state : KeyboardState) : Option Bool :=
  if h.trigger_key ≠ changed then some false
  else if !(pressingSatisfied h.generate_expected_keyboard_state state) then
    some false
  else if h.strict_sequence then
    if h.generate_expected_keyboard_state.sequence.length ≠
        state.sequence.length then some false
    else
      match seqLoopChecked state.sequence
          h.generate_expected_keyboard_state.sequence 0 with
      | none => none
      | some false => some false
      | some true =>
        some (modifierStatesMatch h.generate_expected_keyboard_state state)
  else some (modifierStatesMatch h.generate_expected_keyboard_state state)

/-- From src/hotkey.rs `impl PartialEq for Hotkey`: equality compares
only the trigger key, the modifier list and the trigger timing. -/
def Hotkey.hotkey_eq (a b : Hotkey) : Bool :=
  decide (a.trigger_key = b.trigger_key) &&
    decide (a.modifiers = b.modifiers) &&
    decide (a.trigger_timing = b.trigger_timing)

/-- An arbitrary fixed enumeration of the key catalog, standing in for
the byte encoding the Rust `Hash` derivation feeds to the hasher. -/
def VKey.code : VKey → Nat
  | .None => 0
  | .Control => 1
  | .LControl => 2
  | .RControl => 3
  | .Shift => 4
  | .LShift => 5
  | .RShift => 6
  | .Menu => 7
  | .LMenu => 8
  | .RMenu => 9
  | .Win => 10
  | .LWin => 11
  | .RWin => 12
  | .A => 13
  | .B => 14
  | .V => 15

def TriggerTiming.code : TriggerTiming → Nat
  | .OnKeyDown => 0
  | .OnKeyUp => 1

/-- Modelled from the spec: the stream of data `impl Hash for Hotkey`
feeds to the hasher, in order: the trigger key, the modifier list
(prefixed by its length, as the std `Hash` for `Vec` does) and the
trigger timing.  No other field is fed. -/
def Hotkey.hashStream (h : Hotkey) : List Nat :=
  h.trigger_key.code :: h.modifiers.length ::
    h.modifiers.map VKey.code ++ [h.trigger_timing.code]

/-- Modelled from the spec: `as_hash` runs the standard deterministic
hasher over the hashed fields; the hasher is modelled as a fixed
FNV-style fold over the hash stream, reduced modulo 2 to the 64. -/
def Hotkey.as_hash (h : Hotkey) : Nat :=
  h.hashStream.foldl
    (fun acc x => (acc * 1099511628211 + x) % 18446744073709551616)
    14695981039346656037

/-! ### Basic lemmas about the keyboard state tracker -/

lemma keydown_of_mem (s : KeyboardState) (k : VKey) (hk : k ∈ s.pressing) :
    s.keydown k = s := by
  have hp : ¬ (s.pressing = [] ∧ s.sequence ≠ []) := by
    rintro ⟨h1, _⟩
    rw [h1] at hk
    exact (List.not_mem_nil k) hk
  simp [KeyboardState.keydown, hp, hk]

lemma mem_keydown_self (s : KeyboardState) (k : VKey) :
    k ∈ (s.keydown k).pressing := by
  by_cases hc : s.pressing = [] ∧ s.sequence ≠ [] <;>
    by_cases hk : k ∈ s.pressing <;>
      simp [KeyboardState.keydown, hc, hk]

lemma keyup_sequence (s : KeyboardState) (k : VKey) :
    (s.keyup k).sequence = s.sequence := rfl

/-- C5.  Lazy reset: from any state whose pressing set is empty,
whatever the retained sequence, the next keydown of a key `k` leaves the
sequence equal to the singleton `[k]`; and the sequence is never cleared
at the moment pressing becomes empty (a keyup leaves it untouched), only
at this next keydown. -/
theorem keydown_after_empty_gives_singleton :
    (∀ (s : KeyboardState) (k : VKey), s.pressing = [] →
      (s.keydown k).sequence = [k]) ∧
    (∀ (s : KeyboardState) (k : VKey), (s.keyup k).sequence = s.sequence) := by
  constructor
  · intro s k hp
    by_cases hs : s.sequence = [] <;>
      simp [KeyboardState.keydown, hp, hs]
  · intro s k
    exact keyup_sequence s k

/-- Witness for C5 at a concrete state: pressing is empty while a
three-key history is retained, and the next keydown discards it. -/
theorem keydown_after_empty_gives_singleton_w :
    (KeyboardState.keydown
      { pressing := [], sequence := [.LWin, .V, .B] } .A).sequence = [.A] :=
  keydown_after_empty_gives_singleton.1
    { pressing := [], sequence := [.LWin, .V, .B] } .A rfl

/-- C6.  Idempotent hold: a keydown of a key already in the pressing set
changes nothing, and any number of further keydowns of the same key
leaves the state identical to the state after the first keydown. -/
theorem keydown_idempotent_on_pressed :
    (∀ (s : KeyboardState) (k : VKey), k ∈ s.pressing → s.keydown k = s) ∧
    (∀ (s : KeyboardState) (k : VKey) (n : Nat),
      (fun t => KeyboardState.keydown t k)^[n] (s.keydown k) = s.keydown k) := by
  constructor
  · exact keydown_of_mem
  · intro s k n
    induction n with
    | zero => rfl
    | succ n ih =>
      rw [Function.iterate_succ_apply]
      rw [keydown_of_mem (s.keydown k) k (mem_keydown_self s k)]
      exact ih

/-- Witness for C6 at a concrete state: a second keydown of an
already-pressed key is the identity. -/
theorem keydown_idempotent_on_pressed_w :
    (KeyboardState.new.keydown .A).keydown .A = KeyboardState.new.keydown .A :=
  keydown_idempotent_on_pressed.1 (KeyboardState.new.keydown .A) .A (by decide)

/-- C7.  No clear-on-release: a keyup removes the released key from the
pressing set, leaves every other pressed key in place, and leaves the
sequence field completely unchanged. -/
theorem keyup_removes_key_and_keeps_sequence :
    ∀ (s : KeyboardState) (k : VKey),
      (s.keyup k).sequence = s.sequence ∧
      k ∉ (s.keyup k).pressing ∧
      (∀ j : VKey, j ≠ k → (j ∈ (s.keyup k).pressing ↔ j ∈ s.pressing)) := by
  intro s k
  refine ⟨keyup_sequence s k, ?_, ?_⟩
  · simp [KeyboardState.keyup, List.mem_filter]
  · intro j hj
    simp [KeyboardState.keyup, List.mem_filter, hj]

/-- Witness for C7 at a concrete state with two pressed keys. -/
theorem keyup_removes_key_and_keeps_sequence_w :
    (KeyboardState.keyup
      { pressing := [.A, .B], sequence := [.A, .B] } .A).sequence =
        [.A, .B] ∧
    .A ∉ (KeyboardState.keyup
      { pressing := [.A, .B], sequence := [.A, .B] } .A).pressing ∧
    (.B ∈ (KeyboardState.keyup
      { pressing := [.A, .B], sequence := [.A, .B] } .A).pressing ↔
        .B ∈ ([.A, .B] : List VKey)) :=
  ⟨(keyup_removes_key_and_keeps_sequence
      { pressing := [.A, .B], sequence := [.A, .B] } .A).1,
   (keyup_removes_key_and_keeps_sequence
      { pressing := [.A, .B], sequence := [.A, .B] } .A).2.1,
   (keyup_removes_key_and_keeps_sequence
      { pressing := [.A, .B], sequence := [.A, .B] } .A).2.2 .B (by decide)⟩

/-! ### Inversion of the trigger decision procedure -/

lemma not_mem_keyup_self (s : KeyboardState) (k : VKey) :
    k ∉ (s.keyup k).pressing := by
  simp [KeyboardState.keyup, List.mem_filter]

lemma is_trigger_state_true_iff (h : Hotkey) (c : VKey) (s : KeyboardState) :
    h.is_trigger_state c s = true ↔
      h.trigger_key = c ∧
      pressingSatisfied h.generate_expected_keyboard_state s = true ∧
      (h.strict_sequence = true →
        sequenceStrictOk h.generate_expected_keyboard_state s = true) ∧
      modifierStatesMatch h.generate_expected_keyboard_state s = true := by
  unfold Hotkey.is_trigger_state
  split_ifs with h1 h2 h3
  · simp only [false_iff, not_and]
    intro he
    exact absurd he h1
  · simp only [Bool.not_eq_true'] at h2
    simp [h2]
  · simp only [Bool.and_eq_true, Bool.not_eq_true'] at h3
    obtain ⟨hs, hq⟩ := h3
    simp [hs, hq]
  · have he : h.trigger_key = c := not_not.mp h1
    simp only [Bool.not_eq_true', Bool.not_eq_false] at h2
    simp only [Bool.and_eq_true, Bool.not_eq_true', not_and] at h3
    constructor
    · intro hm
      refine ⟨he, h2, ?_, hm⟩
      intro hs
      by_contra hq
      exact (h3 hs) (Bool.not_eq_true _ ▸ hq)
    · rintro ⟨_, _, _, hm⟩
      exact hm

/-- C1.  The exact modifier-set check is necessary regardless of the
strict flag: whenever `is_trigger_state` returns true, the four
modifier-pressed booleans of the expected state equal those of the live
state; and a live press that is a strict superset of the required
modifiers is rejected, exemplified by a non-strict Control+A hotkey
evaluated against a live state with Control, Shift and A all down. -/
theorem modifier_set_check_necessary :
    (∀ (h : Hotkey) (c : VKey) (s : KeyboardState),
      h.is_trigger_state c s = true →
        h.generate_expected_keyboard_state.is_win_pressed = s.is_win_pressed ∧
        h.generate_expected_keyboard_state.is_menu_pressed
          = s.is_menu_pressed ∧
        h.generate_expected_keyboard_state.is_shift_pressed
          = s.is_shift_pressed ∧
        h.generate_expected_keyboard_state.is_control_pressed
          = s.is_control_pressed) ∧
    (Hotkey.new .A [.Control] 0).is_trigger_state .A
      (((KeyboardState.new.keydown .Control).keydown .Shift).keydown .A)
        = false := by
  constructor
  · intro h c s ht
    have hm := ((is_trigger_state_true_iff h c s).mp ht).2.2.2
    unfold modifierStatesMatch at hm
    simp only [Bool.and_eq_true, beq_iff_eq] at hm
    exact ⟨hm.1.1.1, hm.1.1.2, hm.1.2, hm.2⟩
  · decide

/-- Witness for C1: a plain Control+A press satisfies the hotkey, and
the four modifier-pressed booleans then agree between the expected and
the live state. -/
theorem modifier_set_check_necessary_w :
    (Hotkey.new .A [.Control] 0).generate_expected_keyboard_state.is_win_pressed
      = ((KeyboardState.new.keydown .Control).keydown .A).is_win_pressed ∧
    (Hotkey.new .A [.Control] 0).generate_expected_keyboard_state.is_menu_pressed
      = ((KeyboardState.new.keydown .Control).keydown .A).is_menu_pressed ∧
    (Hotkey.new .A [.Control] 0).generate_expected_keyboard_state.is_shift_pressed
      = ((KeyboardState.new.keydown .Control).keydown .A).is_shift_pressed ∧
    (Hotkey.new .A [.Control] 0).generate_expected_keyboard_state.is_control_pressed
      = ((KeyboardState.new.keydown .Control).keydown .A).is_control_pressed :=
  modifier_set_check_necessary.1 (Hotkey.new .A [.Control] 0) .A
    ((KeyboardState.new.keydown .Control).keydown .A) (by decide)

/-- C3.  Liveness of required keys: whenever `is_trigger_state` returns
true, every non-modifier key of the expected pressing set is down
(modifier-generically) in the live state; and for an OnKeyUp hotkey the
trigger key is absent from the expected pressing set, having been
synthetically released, so it is never among the keys required to be
down. -/
theorem required_nonmodifier_keys_down :
    (∀ (h : Hotkey) (c : VKey) (s : KeyboardState),
      h.is_trigger_state c s = true →
        ∀ k : VKey, k ∈ h.generate_expected_keyboard_state.pressing →
          k.is_modifier_key = false → s.is_down k = true) ∧
    (∀ h : Hotkey, h.trigger_timing = .OnKeyUp →
      h.trigger_key ∉ h.generate_expected_keyboard_state.pressing) := by
  constructor
  · intro h c s ht k hk hnm
    have hp := ((is_trigger_state_true_iff h c s).mp ht).2.1
    unfold pressingSatisfied at hp
    rw [List.all_eq_true] at hp
    have hx := hp k hk
    simpa [hnm] using hx
  · intro h htm
    unfold Hotkey.generate_expected_keyboard_state
    simp only [htm, if_pos]
    exact not_mem_keyup_self _ _

/-- Witness for C3: the non-modifier trigger key A is down in the live
Control+A state of a successful match, and an OnKeyUp variant of the
same hotkey omits its trigger key from the expected pressing set. -/
theorem required_nonmodifier_keys_down_w :
    ((KeyboardState.new.keydown .Control).keydown .A).is_down .A = true ∧
    ((Hotkey.new .A [.Control] 0).set_trigger_timing .OnKeyUp).trigger_key ∉
      ((Hotkey.new .A [.Control] 0).set_trigger_timing
        .OnKeyUp).generate_expected_keyboard_state.pressing :=
  ⟨required_nonmodifier_keys_down.1 (Hotkey.new .A [.Control] 0) .A
      ((KeyboardState.new.keydown .Control).keydown .A) (by decide) .A
      (by decide) (by decide),
   required_nonmodifier_keys_down.2
      ((Hotkey.new .A [.Control] 0).set_trigger_timing .OnKeyUp) (by decide)⟩

/-- C9, counterexample to the claim as stated: a descriptor built by
`from_keys` on the empty key list keeps the sentinel trigger key, yet
`is_trigger_state` returns true when the changed key is itself the
sentinel and the sentinel is recorded as pressed in the live state, so
the descriptor does not fail to match for every changed key. -/
theorem sentinel_trigger_matches_sentinel_changed_key :
    (Hotkey.from_keys []).is_trigger_state .None
      (KeyboardState.new.keydown .None) = true := by decide

/-- C9, amended.  A descriptor whose trigger key is the sentinel never
matches any changed key other than the sentinel itself: evaluation
returns false (rather than raising an error) for every live state and
every changed key distinct from the sentinel; and `from_keys` on the
empty key list leaves the trigger key at the sentinel. -/
theorem sentinel_trigger_never_matches_real_key :
    (∀ h : Hotkey, h.trigger_key = .None →
      ∀ (c : VKey) (s : KeyboardState), c ≠ .None →
        h.is_trigger_state c s = false) ∧
    (Hotkey.from_keys []).trigger_key = .None := by
  constructor
  · intro h ht c s hc
    have hne : h.trigger_key ≠ c := by
      rw [ht]
      exact fun he => hc he.symm
    simp [Hotkey.is_trigger_state, hne]
  · rfl

/-- Witness for C9 (amended): the empty-list descriptor rejects an
ordinary changed key on the fresh keyboard state. -/
theorem sentinel_trigger_never_matches_real_key_w :
    (Hotkey.from_keys []).is_trigger_state .A KeyboardState.new = false :=
  sentinel_trigger_never_matches_real_key.1 (Hotkey.from_keys []) (by decide)
    .A KeyboardState.new (by decide)

/-! ### The strict-sequence check, position by position -/

lemma zip_all_getD (p : VKey → VKey → Bool) :
    ∀ (xs ys : List VKey),
      ((xs.zip ys).all fun q => p q.1 q.2) = true →
      ∀ i : Nat, i < xs.length → i < ys.length →
        p (xs.getD i .None) (ys.getD i .None) = true := by
  intro xs
  induction xs with
  | nil =>
    intro ys _ i hi _
    exact absurd hi (Nat.not_lt_zero i)
  | cons x xs ih =>
    intro ys hall i hi hyi
    cases ys with
    | nil => exact absurd hyi (Nat.not_lt_zero i)
    | cons y ys =>
      rw [List.zip_cons_cons, List.all_cons, Bool.and_eq_true] at hall
      cases i with
      | zero => simpa using hall.1
      | succ i =>
        have hr := ih ys hall.2 i (Nat.lt_of_succ_lt_succ hi)
          (Nat.lt_of_succ_lt_succ hyi)
        simpa using hr

/-- C2.  Strict order check: for a strict hotkey, a successful trigger
forces the live sequence to have exactly the length of the expected
sequence and, at every position, the expected key to match the live key
under the modifier-generic relation; in particular the live order
[Shift, Control, A] fails a strict hotkey declared as
modifiers=[Control, Shift], trigger=A. -/
theorem strict_sequence_positionwise :
    (∀ (h : Hotkey) (c : VKey) (s : KeyboardState),
      h.strict_sequence = true → h.is_trigger_state c s = true →
        h.generate_expected_keyboard_state.sequence.length
          = s.sequence.length ∧
        ∀ i : Nat, i < h.generate_expected_keyboard_state.sequence.length →
          (h.generate_expected_keyboard_state.sequence.getD i
            .None).matches (s.sequence.getD i .None) = true) ∧
    ((Hotkey.new .A [.Control, .Shift] 0).set_strict_sequence).is_trigger_state
      .A (((KeyboardState.new.keydown .Shift).keydown .Control).keydown .A)
        = false := by
  constructor
  · intro h c s hs ht
    have hq := ((is_trigger_state_true_iff h c s).mp ht).2.2.1 hs
    unfold sequenceStrictOk at hq
    rw [Bool.and_eq_true] at hq
    have hlen : h.generate_expected_keyboard_state.sequence.length
        = s.sequence.length := by simpa using hq.1
    refine ⟨hlen, ?_⟩
    intro i hi
    exact zip_all_getD _ _ _ hq.2 i hi (hlen ▸ hi)
  · decide

/-- Witness for C2: the strict Control+Shift+A hotkey triggered by the
in-order live gesture, with the length equality and the position-0 match
extracted through the theorem. -/
theorem strict_sequence_positionwise_w :
    ((Hotkey.new .A [.Control, .Shift]
        0).set_strict_sequence).generate_expected_keyboard_state.sequence.length
      = (((KeyboardState.new.keydown .Control).keydown .Shift).keydown
          .A).sequence.length ∧
    ((((Hotkey.new .A [.Control, .Shift]
        0).set_strict_sequence).generate_expected_keyboard_state.sequence.getD
          0 .None).matches
        ((((KeyboardState.new.keydown .Control).keydown .Shift).keydown
          .A).sequence.getD 0 .None)) = true :=
  ⟨(strict_sequence_positionwise.1 ((Hotkey.new .A [.Control, .Shift]
      0).set_strict_sequence) .A
      (((KeyboardState.new.keydown .Control).keydown .Shift).keydown .A)
      (by decide) (by decide)).1,
   (strict_sequence_positionwise.1 ((Hotkey.new .A [.Control, .Shift]
      0).set_strict_sequence) .A
      (((KeyboardState.new.keydown .Control).keydown .Shift).keydown .A)
      (by decide) (by decide)).2 0 (by decide)⟩

/-! ### Replay of key transition events -/

/-- A raw key transition event, as delivered by the dispatch loop. -/
inductive KeyEvent where
  | down (k : VKey)
  | up (k : VKey)
deriving DecidableEq

/-- Feeding one key transition event to the keyboard state tracker. -/
def applyEvent (s : KeyboardState) : KeyEvent → KeyboardState
  | .down k => s.keydown k
  | .up k => s.keyup k

/-- Replaying a chronological list of key transition events from a given
keyboard state. -/
def replay (s : KeyboardState) (es : List KeyEvent) : KeyboardState :=
  es.foldl applyEvent s

lemma foldl_applyEvent_map_down :
    ∀ (ms : List VKey) (s : KeyboardState),
      List.foldl applyEvent s (ms.map KeyEvent.down)
        = ms.foldl KeyboardState.keydown s := by
  intro ms
  induction ms with
  | nil => intro s; rfl
  | cons m ms ih =>
    intro s
    simpa using ih (s.keydown m)

/-- C4.  The expected keyboard state of a hotkey is exactly the state
obtained by replaying, from a fresh keyboard state, keydown events for
the declared modifiers in order, then a keydown of the trigger key,
then, exactly when the timing is OnKeyUp, one keyup of the trigger key;
this state carries both the expected pressing set and the expected
sequence used by the matching engine. -/
theorem generate_expected_state_is_replay :
    ∀ h : Hotkey,
      h.generate_expected_keyboard_state =
        replay KeyboardState.new
          (h.modifiers.map KeyEvent.down ++ [KeyEvent.down h.trigger_key] ++
            (if h.trigger_timing = .OnKeyUp then [KeyEvent.up h.trigger_key]
              else [])) := by
  intro h
  unfold Hotkey.generate_expected_keyboard_state replay
  cases htm : h.trigger_timing with
  | OnKeyDown =>
    simp [htm, List.foldl_append, foldl_applyEvent_map_down, applyEvent]
  | OnKeyUp =>
    simp [htm, List.foldl_append, foldl_applyEvent_map_down, applyEvent]

/-- C8.  Identity of a hotkey descriptor: equality is exactly agreement
on the triple (trigger key, modifiers, trigger timing) — the behaviour,
strict flag, pause bypass and callback play no part — and agreement on
the triple (hence equality) forces equal identity hashes. -/
theorem hotkey_identity_triple :
    ∀ a b : Hotkey,
      (Hotkey.hotkey_eq a b = true ↔
        (a.trigger_key = b.trigger_key ∧ a.modifiers = b.modifiers ∧
          a.trigger_timing = b.trigger_timing)) ∧
      ((a.trigger_key = b.trigger_key ∧ a.modifiers = b.modifiers ∧
          a.trigger_timing = b.trigger_timing) →
        a.as_hash = b.as_hash) ∧
      (Hotkey.hotkey_eq a b = true → a.as_hash = b.as_hash) := by
  intro a b
  have hiff : Hotkey.hotkey_eq a b = true ↔
      (a.trigger_key = b.trigger_key ∧ a.modifiers = b.modifiers ∧
        a.trigger_timing = b.trigger_timing) := by
    unfold Hotkey.hotkey_eq
    simp [Bool.and_eq_true, decide_eq_true_eq, and_assoc]
  have hhash : (a.trigger_key = b.trigger_key ∧ a.modifiers = b.modifiers ∧
      a.trigger_timing = b.trigger_timing) → a.as_hash = b.as_hash := by
    rintro ⟨h1, h2, h3⟩
    unfold Hotkey.as_hash Hotkey.hashStream
    rw [h1, h2, h3]
  exact ⟨hiff, hhash, fun he => hhash (hiff.mp he)⟩

/-- Witness for C8: two descriptors agreeing on the identity triple but
differing in behaviour, strict flag, pause bypass and callback are equal
and hash identically. -/
theorem hotkey_identity_triple_w :
    Hotkey.hotkey_eq
      { trigger_key := .A, trigger_timing := .OnKeyDown,
        modifiers := [.Control], behaviour := .PassThrough,
        bypass_pause := true, strict_sequence := true, callback := 7 }
      (Hotkey.new .A [.Control] 0) = true ∧
    Hotkey.as_hash
      { trigger_key := .A, trigger_timing := .OnKeyDown,
        modifiers := [.Control], behaviour := .PassThrough,
        bypass_pause := true, strict_sequence := true, callback := 7 }
      = Hotkey.as_hash (Hotkey.new .A [.Control] 0) :=
  ⟨(hotkey_identity_triple
      { trigger_key := .A, trigger_timing := .OnKeyDown,
        modifiers := [.Control], behaviour := .PassThrough,
        bypass_pause := true, strict_sequence := true, callback := 7 }
      (Hotkey.new .A [.Control] 0)).1.mpr ⟨rfl, rfl, rfl⟩,
   (hotkey_identity_triple
      { trigger_key := .A, trigger_timing := .OnKeyDown,
        modifiers := [.Control], behaviour := .PassThrough,
        bypass_pause := true, strict_sequence := true, callback := 7 }
      (Hotkey.new .A [.Control] 0)).2.1 ⟨rfl, rfl, rfl⟩⟩

/-! ### In-bounds indexing of the strict-sequence loop -/

lemma getElem?_eq_some_getD :
    ∀ (l : List VKey) (i : Nat), i < l.length →
      l[i]? = some (l.getD i .None) := by
  intro l
  induction l with
  | nil =>
    intro i hi
    exact absurd hi (Nat.not_lt_zero i)
  | cons x xs ih =>
    intro i hi
    cases i with
    | zero => simp
    | succ i => simpa using ih i (Nat.lt_of_succ_lt_succ hi)

lemma drop_eq_getD_cons :
    ∀ (l : List VKey) (i : Nat), i < l.length →
      l.drop i = l.getD i .None :: l.drop (i + 1) := by
  intro l
  induction l with
  | nil =>
    intro i hi
    exact absurd hi (Nat.not_lt_zero i)
  | cons x xs ih =>
    intro i hi
    cases i with
    | zero => simp
    | succ i => simpa using ih i (Nat.lt_of_succ_lt_succ hi)

lemma seqLoopChecked_eq_zip :
    ∀ (exp live : List VKey) (i : Nat),
      exp.length = live.length - i → i ≤ live.length →
      seqLoopChecked live exp i =
        some ((exp.zip (live.drop i)).all fun p => p.1.matches p.2) := by
  intro exp
  induction exp with
  | nil =>
    intro live i _ _
    simp [seqLoopChecked]
  | cons k rest ih =>
    intro live i hlen hi
    have hilt : i < live.length := by
      simp only [List.length_cons] at hlen
      omega
    rw [seqLoopChecked, getElem?_eq_some_getD live i hilt,
      drop_eq_getD_cons live i hilt]
    dsimp only
    have hrest : rest.length = live.length - (i + 1) := by
      simp only [List.length_cons] at hlen
      omega
    by_cases hm : k.matches (live.getD i .None) = true
    · rw [if_pos hm, ih live (i + 1) hrest hilt, List.zip_cons_cons,
        List.all_cons]
      dsimp only
      rw [hm, Bool.true_and]
    · rw [if_neg hm, List.zip_cons_cons, List.all_cons]
      dsimp only
      simp only [Bool.not_eq_true] at hm
      rw [hm, Bool.false_and]

/-- C10.  The positional access of the strict-sequence loop is always in
bounds: the index-checked rendering of the decision procedure, in which
an out-of-bounds access would surface as `none`, always returns `some`
of the value computed by `is_trigger_state` — the guard equating the
expected and live sequence lengths keeps every index inside the live
sequence, so the procedure is total on every hotkey and every keyboard
state. -/
theorem is_trigger_state_checked_total :
    ∀ (h : Hotkey) (c : VKey) (s : KeyboardState),
      h.is_trigger_state_checked c s = some (h.is_trigger_state c s) := by
  intro h c s
  unfold Hotkey.is_trigger_state_checked Hotkey.is_trigger_state
  by_cases h1 : h.trigger_key ≠ c
  · rw [if_pos h1, if_pos h1]
  · rw [if_neg h1, if_neg h1]
    by_cases h2 :
        (!(pressingSatisfied h.generate_expected_keyboard_state s)) = true
    · rw [if_pos h2, if_pos h2]
    · rw [if_neg h2, if_neg h2]
      by_cases h3 : h.strict_sequence = true
      · rw [if_pos h3]
        by_cases h4 : h.generate_expected_keyboard_state.sequence.length
            = s.sequence.length
        · rw [if_neg (not_ne_iff.mpr h4),
            seqLoopChecked_eq_zip _ _ 0 (by simpa using h4) (Nat.zero_le _)]
          simp only [List.drop_zero]
          by_cases h5 : ((h.generate_expected_keyboard_state.sequence.zip
              s.sequence).all fun p => p.1.matches p.2) = true
          · have hsq : sequenceStrictOk h.generate_expected_keyboard_state s
                = true := by
              unfold sequenceStrictOk
              rw [Bool.and_eq_true]
              exact ⟨by simpa using h4, h5⟩
            rw [h5, hsq]
            simp [h3]
          · simp only [Bool.not_eq_true] at h5
            have hsq : sequenceStrictOk h.generate_expected_keyboard_state s
                = false := by
              unfold sequenceStrictOk
              simp [h5]
            rw [h5, hsq]
            simp [h3]
        · rw [if_pos h4]
          have hsq : sequenceStrictOk h.generate_expected_keyboard_state s
              = false := by
            unfold sequenceStrictOk
            simp [h4]
          rw [if_pos (by simp [h3, hsq] :
            (h.strict_sequence &&
              !(sequenceStrictOk h.generate_expected_keyboard_state s))
                = true)]
      · simp only [Bool.not_eq_true] at h3
        rw [if_neg (by simp [h3]), if_neg (by simp [h3] :
          ¬(h.strict_sequence &&
            !(sequenceStrictOk h.generate_expected_keyboard_state s))
              = true)]
